import Mathlib

/-!
Verification of the load-test statistics pipeline (`stats.py`).

The Python source is shallowly embedded: every function of the source that the
claims touch is translated to an executable Lean definition of the same name.
Numeric data is modelled by exact rationals (`ℚ`); the IEEE special values that
the throughput division can produce are modelled by the extended type `PyFloat`.
-/

deriving instance DecidableEq for Except

namespace Stats

/-! ### Character/string scanning primitives

`re.search` performs an unanchored scan; we model the two concrete patterns of
`extract_metadata` by deterministic scanners over `List Char`.  Both patterns
have every `\d+` group followed by a non-digit literal, so greedy maximal-munch
digit runs are exactly the regex backtracking semantics.
-/

/-- `int(...)` on a decimal digit string. -/
def digitsToNat (l : List Char) : Nat :=
  l.foldl (fun a c => a * 10 + (c.toNat - 48)) 0

/-- Consume a maximal nonempty run of decimal digits (the `(\d+)` group):
returns the run's numeric value and the rest of the input. -/
def takeDigits1 (l : List Char) : Option (Nat × List Char) :=
  match l with
  | [] => none
  | c :: _ =>
    if c.isDigit then some (digitsToNat (l.takeWhile Char.isDigit), l.dropWhile Char.isDigit)
    else none

/-- Consume an exact literal character sequence. -/
def stripLit : List Char → List Char → Option (List Char)
  | [], l => some l
  | _ :: _, [] => none
  | p :: ps, c :: cs => if c = p then stripLit ps cs else none

/-- Match the directory pattern `cnc(\d+)_(\d+)-(\d+)` at the head of the
input, returning the three captured groups. -/
def matchCncAt (l : List Char) : Option (Nat × Nat × Nat) := do
  let r1 ← stripLit ['c', 'n', 'c'] l
  let (cnc, r2) ← takeDigits1 r1
  let r3 ← stripLit ['_'] r2
  let (tn, r4) ← takeDigits1 r3
  let r5 ← stripLit ['-'] r4
  let (vn, _) ← takeDigits1 r5
  some (cnc, tn, vn)

/-- `re.search(r"cnc(\d+)_(\d+)-(\d+)", s)`: try the pattern at every start
position, left to right (leftmost match). -/
def searchCnc : List Char → Option (Nat × Nat × Nat)
  | [] => none
  | c :: cs => (matchCncAt (c :: cs)).orElse (fun _ => searchCnc cs)

/-- Match `-(\d+)-(\d+)\.csv` at the head of the input, returning the two
captured groups (`run`, `batch`). -/
def matchTailAt (l : List Char) : Option (Nat × Nat) := do
  let r1 ← stripLit ['-'] l
  let (run, r2) ← takeDigits1 r1
  let r3 ← stripLit ['-'] r2
  let (batch, r4) ← takeDigits1 r3
  let _ ← stripLit ['.', 'c', 's', 'v'] r4
  some (run, batch)

/-- The lazy `.*?` region followed by the tail pattern: try the tail at each
position, consuming region characters one at a time; `.` does not match a
newline, so the scan stops at `\n`. -/
def scanTail : List Char → Option (Nat × Nat)
  | [] => none
  | c :: cs => (matchTailAt (c :: cs)).orElse (fun _ => if c = '\n' then none else scanTail cs)

/-- Match `result-.*?-(\d+)-(\d+)\.csv` at the head of the input. -/
def matchFileAt (l : List Char) : Option (Nat × Nat) :=
  (stripLit ['r', 'e', 's', 'u', 'l', 't', '-'] l).bind scanTail

/-- `re.search(r"result-.*?-(\d+)-(\d+)\.csv", s)`: unanchored leftmost scan. -/
def searchFile : List Char → Option (Nat × Nat)
  | [] => none
  | c :: cs => (matchFileAt (c :: cs)).orElse (fun _ => searchFile cs)

/-! ### Path handling (`os.path`) -/

/-- `os.path.basename`: the part after the last `/`. -/
def basenameL (l : List Char) : List Char :=
  (l.reverse.takeWhile (fun c => c != '/')).reverse

/-- `os.path.dirname`: everything up to and including the last `/`, then
trailing slashes stripped unless the head consists only of slashes. -/
def dirnameL (l : List Char) : List Char :=
  let head := (l.reverse.dropWhile (fun c => c != '/')).reverse
  if head.isEmpty || head.all (fun c => c == '/') then head
  else (head.reverse.dropWhile (fun c => c == '/')).reverse

/-- Does the second list start with the first? -/
def leadsWith : List Char → List Char → Bool
  | [], _ => true
  | _ :: _, [] => false
  | p :: ps, c :: cs => p == c && leadsWith ps cs

/-- `os.path.join(d, n)` for a directory and a plain file name. -/
def joinPath (d n : String) : String :=
  if d = "" then n
  else if d.data.getLast? == some '/' then d ++ n
  else d ++ "/" ++ n

/-! ### Lookup tables and metadata extraction -/

/-- `get_implementation_name`: variant number → readable name; unknown numbers
map to a placeholder embedding the raw number. -/
def get_implementation_name (variant : Nat) : String :=
  if variant = 1 then "Imperative"
  else if variant = 2 then "Virtual Threads"
  else if variant = 3 then "Reactive"
  else "Unknown (" ++ toString variant ++ ")"

/-- `get_test_name`: test number → readable name. -/
def get_test_name (test : Nat) : String :=
  if test = 1 then "HTTP Status (5s)"
  else if test = 2 then "CPU Prime"
  else if test = 3 then "Database I/O"
  else "Test " ++ toString test

/-- The metadata record returned by `extract_metadata`.  Note: the Python dict
has exactly these seven keys — there is no `test_id` entry. -/
structure Metadata where
  concurrency : Nat
  test_num : Nat
  test_name : String
  variant : Nat
  implementation : String
  run : Nat
  batch : Nat
deriving DecidableEq, Repr

/-- `extract_metadata(filename)`: search the containing directory's name for
the `cnc…` pattern and the file's base name for the `result-…` pattern;
return `None` unless both match. -/
def extract_metadata (filename : String) : Option Metadata :=
  let dir_name := basenameL (dirnameL filename.data)
  match searchCnc dir_name with
  | none => none
  | some (cnc, tn, vn) =>
    match searchFile (basenameL filename.data) with
    | none => none
    | some (r, b) =>
      some { concurrency := cnc
             test_num := tn
             test_name := get_test_name tn
             variant := vn
             implementation := get_implementation_name vn
             run := r
             batch := b }

/-- The column names added by `for key, value in metadata.items(): df[key] = value`,
in dict insertion order. -/
def metadataKeys : List String :=
  ["concurrency", "test_num", "test_name", "variant", "implementation", "run", "batch"]

/-! ### DataFrame model

A cell is either a number (modelled exactly, by `ℚ`) or a string.  A frame is
a list of column names plus rows given as association lists from column name
to cell value.
-/

/-- A cell value of a loaded table. -/
inductive Value where
  | num (q : ℚ)
  | str (s : String)
deriving DecidableEq, Repr

/-- One row: association list column name → value. -/
abbrev Row := List (String × Value)

/-- A pandas `DataFrame`, shallowly: column names plus rows. -/
structure DataFrame where
  cols : List String
  rows : List Row
deriving DecidableEq, Repr

/-- Cell lookup.  Frames produced by `pd.read_csv` are rectangular, so the
default is never reached on loader-built data. -/
def getVal (r : Row) (c : String) : Value :=
  ((r.find? (fun p => p.1 == c)).map (fun p => p.2)).getD (Value.str "")

/-- `df[key] = value`: set a whole column to one scalar (overwrite if the
column exists, else append it). -/
def setCol (df : DataFrame) (key : String) (v : Value) : DataFrame :=
  if df.cols.contains key then
    { cols := df.cols
      rows := df.rows.map (fun r => r.map (fun p => if p.1 = key then (key, v) else p)) }
  else
    { cols := df.cols ++ [key]
      rows := df.rows.map (fun r => r ++ [(key, v)]) }

/-- The metadata-attachment loop of `load_and_process_data`:
`for key, value in metadata.items(): df[key] = value`. -/
def addMetadata (df : DataFrame) (m : Metadata) : DataFrame :=
  setCol (setCol (setCol (setCol (setCol (setCol (setCol df
    "concurrency" (Value.num m.concurrency))
    "test_num" (Value.num m.test_num))
    "test_name" (Value.str m.test_name))
    "variant" (Value.num m.variant))
    "implementation" (Value.str m.implementation))
    "run" (Value.num m.run))
    "batch" (Value.num m.batch)

/-- Append-keeping-first-occurrence column union, as `pd.concat` uses. -/
def unionCols (acc : List String) (cs : List String) : List String :=
  cs.foldl (fun a c => if a.contains c then a else a ++ [c]) acc

/-- `pd.concat(df_list, ignore_index=True)`. -/
def concatDFs (dfs : List DataFrame) : DataFrame :=
  { cols := dfs.foldl (fun a df => unionCols a df.cols) []
    rows := dfs.flatMap (fun df => df.rows) }

/-! ### Sample Loader (`load_and_process_data`) -/

/-- A directory entry: the file's base name and the outcome of
`pd.read_csv` on it (`Except.error` models a raised parse exception with its
message). -/
structure SrcFile where
  name : String
  content : Except String DataFrame
deriving DecidableEq, Repr

/-- The glob pattern `result-*.csv` on a base name: `fnmatch` anchors the
whole name, so the name is `result-` ++ anything ++ `.csv`. -/
def globMatch (name : String) : Bool :=
  leadsWith "result-".data name.data &&
    leadsWith ".csv".data.reverse name.data.reverse &&
    decide (11 ≤ name.data.length)

/-- One pass of the loader's `for file in csv_files` loop over the matched
candidates, in listing order: files whose path does not parse are skipped
silently; files whose content fails to load contribute a printed warning; the
rest are annotated with their metadata and collected. -/
def processFiles (directory : String) : List SrcFile → List String × List DataFrame
  | [] => ([], [])
  | f :: fs =>
    let rest := processFiles directory fs
    match extract_metadata (joinPath directory f.name) with
    | none => rest
    | some m =>
      match f.content with
      | Except.ok df => (rest.1, addMetadata df m :: rest.2)
      | Except.error e =>
        (("Error reading " ++ joinPath directory f.name ++ ": " ++ e) :: rest.1, rest.2)

/-- `load_and_process_data(directory)`: glob for `result-*.csv`, process every
candidate, and either fail (no candidates at all, or nothing usable) or return
the concatenated unified dataset.  The first component is the list of printed
warning lines. -/
def load_and_process_data (directory : String) (listing : List SrcFile) :
    List String × Except String DataFrame :=
  let csv_files := listing.filter (fun f => globMatch f.name)
  if csv_files.isEmpty then
    ([], Except.error "No CSV files found in the provided directory.")
  else
    let res := processFiles directory csv_files
    if res.2.isEmpty then
      (res.1, Except.error "No valid data could be loaded.")
    else
      (res.1, Except.ok (concatDFs res.2))

/-- What one candidate file contributes to the collected tables: its annotated
table when both the path parse and the content load succeed, nothing
otherwise. -/
def loadStep (directory : String) (f : SrcFile) : Option DataFrame :=
  match extract_metadata (joinPath directory f.name), f.content with
  | some m, Except.ok df => some (addMetadata df m)
  | _, _ => none

/-! ### Extended numbers for the throughput division

`calculate_rps` divides by a float that can be zero; numpy propagates the IEEE
special values instead of raising.  We model the exactly-representable
fragment: a rational, the two infinities, or NaN.
-/

/-- A numpy float value: exact finite rational, `±inf`, or `nan`. -/
inductive PyFloat where
  | fin (q : ℚ)
  | inf
  | ninf
  | nan
deriving DecidableEq, Repr

/-- IEEE division semantics on the exact fragment (nonzero/0 gives a signed
infinity, 0/0 gives NaN; no exception is ever raised). -/
def pdiv (x y : ℚ) : PyFloat :=
  if y = 0 then
    if x = 0 then PyFloat.nan
    else if 0 < x then PyFloat.inf
    else PyFloat.ninf
  else PyFloat.fin (x / y)

/-- IEEE addition on the exact fragment. -/
def pfAdd : PyFloat → PyFloat → PyFloat
  | PyFloat.nan, _ => PyFloat.nan
  | _, PyFloat.nan => PyFloat.nan
  | PyFloat.inf, PyFloat.ninf => PyFloat.nan
  | PyFloat.ninf, PyFloat.inf => PyFloat.nan
  | PyFloat.inf, _ => PyFloat.inf
  | _, PyFloat.inf => PyFloat.inf
  | PyFloat.ninf, _ => PyFloat.ninf
  | _, PyFloat.ninf => PyFloat.ninf
  | PyFloat.fin a, PyFloat.fin b => PyFloat.fin (a + b)

/-- Division of an extended value by a positive count. -/
def pfDivNat (x : PyFloat) (n : Nat) : PyFloat :=
  match x with
  | PyFloat.fin q => pdiv q n
  | PyFloat.inf => if n = 0 then PyFloat.inf else PyFloat.inf
  | PyFloat.ninf => PyFloat.ninf
  | PyFloat.nan => PyFloat.nan

/-- Mean of a list of extended values (`Series.mean` over the rps column). -/
def pfMean (xs : List PyFloat) : PyFloat :=
  pfDivNat (xs.foldl pfAdd (PyFloat.fin 0)) xs.length

/-- Is the value finite? -/
def PyFloat.isFinite : PyFloat → Bool
  | PyFloat.fin _ => true
  | _ => false

/-! ### Scalar statistics (exact-rational model of the pandas aggregations) -/

/-- Ascending sort of a sample, by structurally recursive insertion sort (so
concrete evaluations reduce in the kernel). -/
def sortQ (xs : List ℚ) : List ℚ :=
  List.insertionSort (fun a b : ℚ => a ≤ b) xs

/-- `'mean'`. -/
def meanQ (xs : List ℚ) : ℚ := xs.sum / xs.length

/-- The square of the pandas `'std'` aggregate (sample variance, `ddof=1`).
The source column holds the square root of this value; we keep the square so
everything stays inside `ℚ` (division by zero at a singleton sample yields `0`
here where pandas shows NaN; no claim touches a singleton std). -/
def varQ (xs : List ℚ) : ℚ :=
  (xs.map (fun x => (x - meanQ xs) ^ 2)).sum / ((xs.length : ℚ) - 1)

/-- `'min'`. -/
def minQ (xs : List ℚ) : ℚ := (sortQ xs).headD 0

/-- `'max'`. -/
def maxQ (xs : List ℚ) : ℚ := (sortQ xs).getLastD 0

/-- The numpy linear-interpolation position value: for position `h` in the
sorted sample `s`, `s[⌊h⌋] + (h - ⌊h⌋) * (s[⌊h⌋+1] - s[⌊h⌋])`. -/
def interpAt (s : List ℚ) (h : ℚ) : ℚ :=
  let i := (⌊h⌋).toNat
  let lo := s.getD i 0
  let hi := s.getD (i + 1) lo
  lo + (h - (i : ℚ)) * (hi - lo)

/-- `Series.quantile(q)` with the pandas default `interpolation='linear'`. -/
def quantileQ (q : ℚ) (xs : List ℚ) : ℚ :=
  if xs.isEmpty then 0 else interpAt (sortQ xs) (q * ((xs.length : ℚ) - 1))

/-- `'median'`: the numpy midpoint convention (middle element, or the average
of the two middle elements for an even-sized sample). -/
def medianQ (xs : List ℚ) : ℚ :=
  let s := sortQ xs
  let n := s.length
  if n = 0 then 0
  else if n % 2 = 1 then s.getD (n / 2) 0
  else (s.getD (n / 2 - 1) 0 + s.getD (n / 2) 0) / 2

/-- `.round(2)` on an exact value: round half to even at two decimals. -/
def roundHalfEven (x : ℚ) : ℤ :=
  let f := ⌊x⌋
  let r := x - (f : ℚ)
  if r < 1 / 2 then f
  else if 1 / 2 < r then f + 1
  else if f % 2 = 0 then f else f + 1

/-- Round to two decimal places. -/
def round2 (x : ℚ) : ℚ := (roundHalfEven (x * 100) : ℚ) / 100

/-! ### Group keys and sorted groupby -/

/-- Lexicographic order on character lists (Python string comparison). -/
def strLEb : List Char → List Char → Bool
  | [], _ => true
  | _ :: _, [] => false
  | a :: as, b :: bs => if a = b then strLEb as bs else decide (a < b)

/-- A total order on cell values: numbers before strings, numbers by `ℚ`,
strings lexicographically (pandas sorts group keys; key tuples are homogeneous
in practice, the cross cases just fix some total order). -/
def valLE : Value → Value → Bool
  | Value.num a, Value.num b => decide (a ≤ b)
  | Value.num _, Value.str _ => true
  | Value.str _, Value.num _ => false
  | Value.str a, Value.str b => strLEb a.data b.data

/-- Lexicographic order on key tuples. -/
def keysLE : List Value → List Value → Bool
  | [], _ => true
  | _ :: _, [] => false
  | a :: as, b :: bs => if a = b then keysLE as bs else valLE a b

/-- The key order as a decidable relation, for sorting. -/
def KeyLE (a b : List Value) : Prop := keysLE a b = true

instance : DecidableRel KeyLE := fun a b => inferInstanceAs (Decidable (keysLE a b = true))

/-- The key tuple of a row for a list of grouping columns. -/
def keyOf (gcols : List String) (r : Row) : List Value := gcols.map (getVal r)

/-- `groupby(gcols, sort=True)` key enumeration: the distinct key tuples in
ascending order. -/
def groupKeys (gcols : List String) (rows : List Row) : List (List Value) :=
  List.insertionSort KeyLE ((rows.map (keyOf gcols)).dedup)

/-- The rows belonging to one group (original order, as pandas preserves it). -/
def groupRows (gcols : List String) (rows : List Row) (k : List Value) : List Row :=
  rows.filter (fun r => decide (keyOf gcols r = k))

/-! ### Aggregator (`generate_summary_stats`) -/

/-- The four timing metrics aggregated per group. -/
def metricsList : List String :=
  ["response-time", "Response-delay", "Response-read", "Request-write"]

/-- The grouping key of the batch summary. -/
def batchKeyCols : List String := ["test_id", "run", "batch"]

/-- The numeric values of one column over a group. -/
def numsOf (grp : List Row) (c : String) : List ℚ :=
  grp.filterMap (fun r =>
    match getVal r c with
    | Value.num q => some q
    | Value.str _ => none)

/-- The seven per-metric aggregates of the batch summary.  `var` is the square
of the source's `std` column (see `varQ`). -/
structure MetricStats where
  avg : ℚ
  var : ℚ
  min : ℚ
  max : ℚ
  p50 : ℚ
  p95 : ℚ
  p99 : ℚ
deriving DecidableEq, Repr

/-- The aggregation list applied to one metric of one group:
mean / std / min / max / median / `quantile(0.95)` / `quantile(0.99)`. -/
def metricStatsOf (vals : List ℚ) : MetricStats :=
  { avg := meanQ vals
    var := varQ vals
    min := minQ vals
    max := maxQ vals
    p50 := medianQ vals
    p95 := quantileQ (95 / 100) vals
    p99 := quantileQ (99 / 100) vals }

/-- `(x['status-code'] >= 400)` for one row (a NaN or non-numeric cell
compares false, as in pandas). -/
def statusGe400 (r : Row) : Bool :=
  match getVal r "status-code" with
  | Value.num q => decide (400 ≤ q)
  | Value.str _ => false

/-- `error_rate`: `(x['status-code'] >= 400).mean() * 100` over a group. -/
def error_rate_of (grp : List Row) : ℚ :=
  ((grp.countP statusGe400 : ℚ) / (grp.length : ℚ)) * 100

/-- `calculate_rps(row)`: `total_requests / (avg_response-time / 1000)`. -/
def calculate_rps (total_requests avg_response_time : ℚ) : PyFloat :=
  pdiv total_requests (avg_response_time / 1000)

/-- One row of the batch summary: key `(test_id, run, batch)`, the four
per-metric aggregate blocks, `total_requests`, `error_rate`, `rps`. -/
structure BatchRow where
  key : List Value
  rt : MetricStats
  rd : MetricStats
  rr : MetricStats
  rw : MetricStats
  total_requests : Nat
  error_rate : ℚ
  rps : PyFloat
deriving DecidableEq, Repr

/-- Build the batch-summary row of one `(test_id, run, batch)` group. -/
def mkBatchRow (k : List Value) (grp : List Row) : BatchRow :=
  let rt := metricStatsOf (numsOf grp "response-time")
  { key := k
    rt := rt
    rd := metricStatsOf (numsOf grp "Response-delay")
    rr := metricStatsOf (numsOf grp "Response-read")
    rw := metricStatsOf (numsOf grp "Request-write")
    total_requests := grp.length
    error_rate := error_rate_of grp
    rps := calculate_rps (grp.length : ℚ) rt.avg }

/-- The batch summary: one row per `(test_id, run, batch)` group, in sorted
key order (pandas `groupby` default `sort=True`). -/
def batchSummaryOf (rows : List Row) : List BatchRow :=
  (groupKeys batchKeyCols rows).map
    (fun k => mkBatchRow k (groupRows batchKeyCols rows k))

/-- One row of the across-runs average view: key `(test_id, batch)` and the
means of rps / avg response time / error rate / total requests. -/
structure AvgBatchRow where
  key : List Value
  rps : PyFloat
  avg_rt : ℚ
  error_rate : ℚ
  total_requests : ℚ
deriving DecidableEq, Repr

/-- `batch_summary.groupby(['test_id', 'batch']).agg({... 'mean' ...})`:
mean of rps, avg response time, error rate and total requests across runs. -/
def avg_batch_summary (bs : List BatchRow) : List AvgBatchRow :=
  let keyOf2 := fun (b : BatchRow) => [b.key.getD 0 (Value.str ""), b.key.getD 2 (Value.str "")]
  let ks := List.insertionSort KeyLE ((bs.map keyOf2).dedup)
  ks.map (fun k =>
    let grp := bs.filter (fun b => decide (keyOf2 b = k))
    { key := k
      rps := pfMean (grp.map (fun b => b.rps))
      avg_rt := meanQ (grp.map (fun b => b.rt.avg))
      error_rate := meanQ (grp.map (fun b => b.error_rate))
      total_requests := meanQ (grp.map (fun b => (b.total_requests : ℚ))) })

/-- One row of the run summary.  `avg_rt_var` is the square of the source's
rounded `std` column: the source shows `round2 (sqrt avg_rt_var)`, a fixed
function of this field (kept squared to stay in `ℚ`). -/
structure RunRow where
  run : Value
  avg_rt_mean : ℚ
  avg_rt_var : ℚ
  p99_max : ℚ
  error_rate_max : ℚ
  total_requests_sum : ℚ
deriving DecidableEq, Repr

/-- `batch_summary.groupby('run').agg(...).round(2)`. -/
def run_summary_of (bs : List BatchRow) : List RunRow :=
  let runOf := fun (b : BatchRow) => b.key.getD 1 (Value.str "")
  let ks := List.insertionSort KeyLE ((bs.map (fun b => [runOf b])).dedup)
  ks.map (fun k =>
    let grp := bs.filter (fun b => decide ([runOf b] = k))
    let avgs := grp.map (fun b => b.rt.avg)
    { run := k.getD 0 (Value.str "")
      avg_rt_mean := round2 (meanQ avgs)
      avg_rt_var := varQ avgs
      p99_max := round2 (maxQ (grp.map (fun b => b.rt.p99)))
      error_rate_max := round2 (maxQ (grp.map (fun b => b.error_rate)))
      total_requests_sum := round2 (grp.map (fun b => (b.total_requests : ℚ))).sum })

/-- `generate_summary_stats(data)`.  `data.groupby(['test_id','run','batch'])`
raises `KeyError` when a grouping column is absent (its `str` is the quoted
column name); a missing metric or status column raises when first accessed.
The across-runs average view is computed (lines 124–129 of the source) but
not returned — the function returns only `(batch_summary, run_summary)`. -/
def generate_summary_stats (data : DataFrame) :
    Except String (List BatchRow × List RunRow) :=
  match batchKeyCols.find? (fun c => !(data.cols.contains c)) with
  | some c => Except.error ("'" ++ c ++ "'")
  | none =>
    match (metricsList ++ ["status-code"]).find? (fun c => !(data.cols.contains c)) with
    | some c => Except.error ("Column not found: " ++ c)
    | none =>
      let batch_summary := batchSummaryOf data.rows
      let _avg_batch := avg_batch_summary batch_summary
      let run_summary := run_summary_of batch_summary
      Except.ok (batch_summary, run_summary)

/-! ### `main` and the module entry point -/

/-- The observable outcome of `main()`: either the `except` branch ran
(printing `Error: …` and returning `1`), or the reports were printed from the
computed summaries (their string rendering is mechanical presentation, out of
the aggregation core; the data they render is carried verbatim). -/
inductive MainOutcome where
  | errored (printed : List String) (returned : Nat)
  | reported (batch : List BatchRow) (run : List RunRow) (warnings : List String)
deriving DecidableEq, Repr

/-- `main()` for a given directory listing (plot flag off): load, aggregate,
report; any exception is caught, printed as `Error: …`, and turns into a
return value of `1`. -/
def main (directory : String) (listing : List SrcFile) : MainOutcome :=
  match load_and_process_data directory listing with
  | (w, Except.error e) => MainOutcome.errored (w ++ ["Error: " ++ e]) 1
  | (w, Except.ok data) =>
    match generate_summary_stats data with
    | Except.error e => MainOutcome.errored (w ++ ["Error: " ++ e]) 1
    | Except.ok (b, r) => MainOutcome.reported b r w

/-- The `if __name__ == "__main__": main()` block: `main`'s return value is
discarded, and since `main` catches every exception the interpreter finishes
normally — the process completion status is `0` on every input. -/
def script_exit_code (directory : String) (listing : List SrcFile) : Nat :=
  let _ := main directory listing
  0

/-! ### Concrete example data -/

/-- One row of input data, with the five documented sample columns plus the
`test_id`/`run`/`batch` grouping columns. -/
def mkDataRow (rt dly rd wr sc : ℚ) (tid : String) (run batch : ℚ) : Row :=
  [("response-time", Value.num rt), ("Response-delay", Value.num dly),
   ("Response-read", Value.num rd), ("Request-write", Value.num wr),
   ("status-code", Value.num sc),
   ("test_id", Value.str tid), ("run", Value.num run), ("batch", Value.num batch)]

/-- A unified dataset with the full set of columns the aggregator reads:
one test, one run, two batches of two requests each. -/
def unifiedExample : DataFrame :=
  { cols := ["response-time", "Response-delay", "Response-read", "Request-write",
             "status-code", "test_id", "run", "batch"]
    rows := [mkDataRow 10 1 2 3 200 "r" 0 0, mkDataRow 30 1 2 3 200 "r" 0 0,
             mkDataRow 35 1 2 3 200 "r" 0 1, mkDataRow 45 1 2 3 200 "r" 0 1] }

/-- The batch summary of `unifiedExample`, spelled out. -/
def batchExpected : List BatchRow :=
  [{ key := [Value.str "r", Value.num 0, Value.num 0]
     rt := { avg := 20, var := 200, min := 10, max := 30, p50 := 20, p95 := 29, p99 := 149 / 5 }
     rd := { avg := 1, var := 0, min := 1, max := 1, p50 := 1, p95 := 1, p99 := 1 }
     rr := { avg := 2, var := 0, min := 2, max := 2, p50 := 2, p95 := 2, p99 := 2 }
     rw := { avg := 3, var := 0, min := 3, max := 3, p50 := 3, p95 := 3, p99 := 3 }
     total_requests := 2
     error_rate := 0
     rps := PyFloat.fin 100 },
   { key := [Value.str "r", Value.num 0, Value.num 1]
     rt := { avg := 40, var := 50, min := 35, max := 45, p50 := 40, p95 := 89 / 2, p99 := 449 / 10 }
     rd := { avg := 1, var := 0, min := 1, max := 1, p50 := 1, p95 := 1, p99 := 1 }
     rr := { avg := 2, var := 0, min := 2, max := 2, p50 := 2, p95 := 2, p99 := 2 }
     rw := { avg := 3, var := 0, min := 3, max := 3, p50 := 3, p95 := 3, p99 := 3 }
     total_requests := 2
     error_rate := 0
     rps := PyFloat.fin 50 }]

/-- The run summary of `unifiedExample`, spelled out. -/
def runExpected : List RunRow :=
  [{ run := Value.num 0
     avg_rt_mean := 30
     avg_rt_var := 200
     p99_max := 449 / 10
     error_rate_max := 0
     total_requests_sum := 4 }]

/-- The across-runs average view of `unifiedExample`, spelled out. -/
def avgExpected : List AvgBatchRow :=
  [{ key := [Value.str "r", Value.num 0]
     rps := PyFloat.fin 100, avg_rt := 20, error_rate := 0, total_requests := 2 },
   { key := [Value.str "r", Value.num 1]
     rps := PyFloat.fin 50, avg_rt := 40, error_rate := 0, total_requests := 2 }]

/-- A well-formed CSV table exactly following the documented input schema
(the five sample columns, nothing else). -/
def sampleCsv : DataFrame :=
  { cols := ["response-time", "Response-delay", "Response-read", "Request-write", "status-code"]
    rows := [[("response-time", Value.num 10), ("Response-delay", Value.num 1),
              ("Response-read", Value.num 2), ("Request-write", Value.num 3),
              ("status-code", Value.num 200)]] }

/-- A directory listing holding one schema-conforming file whose name and
directory both follow the full naming scheme. -/
def conformingListing : List SrcFile :=
  [{ name := "result-r-0-0.csv", content := Except.ok sampleCsv }]

/-- The dataset the loader builds from `conformingListing`. -/
def conformingLoaded : Except String DataFrame :=
  (load_and_process_data "cnc10_1-2" conformingListing).2

/-- Modelled from the spec: the conventional linear-interpolation percentile of
a finite sample — position `h = q·(n−1)`, interpolating between the `⌊h⌋`-th
and `⌈h⌉`-th order statistics of the sorted sample.  Stated from the spec's
words to be compared against the source's `quantileQ`/`medianQ`. -/
def percentileLinear (q : ℚ) (xs : List ℚ) : ℚ :=
  let s := sortQ xs
  let h := q * ((xs.length : ℚ) - 1)
  s.getD (⌊h⌋).toNat 0 + (h - (⌊h⌋ : ℚ)) * (s.getD (⌈h⌉).toNat 0 - s.getD (⌊h⌋).toNat 0)

/-- The language of the directory regex as a substring property: some
substring of `s` is `cnc` ++ digits ++ `_` ++ digits ++ `-` ++ digits
(each digit run nonempty). -/
def ContainsCncPattern (s : List Char) : Prop :=
  ∃ pre d1 d2 d3 post : List Char,
    s = pre ++ ('c' :: 'n' :: 'c' :: []) ++ d1 ++ ['_'] ++ d2 ++ ['-'] ++ d3 ++ post ∧
    d1 ≠ [] ∧ d2 ≠ [] ∧ d3 ≠ [] ∧
    (∀ c ∈ d1, c.isDigit = true) ∧ (∀ c ∈ d2, c.isDigit = true) ∧
    (∀ c ∈ d3, c.isDigit = true)

/-- The language of the filename regex as a substring property: some substring
of `s` is `result-` ++ mid ++ `-` ++ digits ++ `-` ++ digits ++ `.csv`, with
`mid` newline-free (`.` does not match a newline) — in particular `.csv` need
not be a suffix of `s`. -/
def ContainsResultPattern (s : List Char) : Prop :=
  ∃ pre mid d1 d2 post : List Char,
    s = pre ++ ('r' :: 'e' :: 's' :: 'u' :: 'l' :: 't' :: '-' :: []) ++ mid ++ ['-'] ++
        d1 ++ ['-'] ++ d2 ++ ('.' :: 'c' :: 's' :: 'v' :: []) ++ post ∧
    d1 ≠ [] ∧ d2 ≠ [] ∧
    (∀ c ∈ d1, c.isDigit = true) ∧ (∀ c ∈ d2, c.isDigit = true) ∧
    '\n' ∉ mid

/-- A listing mixing one loadable file, one file whose content fails to parse,
and one file outside the naming convention. -/
def mixedListing : List SrcFile :=
  [{ name := "result-r-0-0.csv", content := Except.ok sampleCsv },
   { name := "result-r-0-1.csv", content := Except.error "ParserError" },
   { name := "notes.txt", content := Except.ok sampleCsv }]

/-- The example dataset with its rows in reversed order. -/
def unifiedExamplePerm : DataFrame :=
  { cols := ["response-time", "Response-delay", "Response-read", "Request-write",
             "status-code", "test_id", "run", "batch"]
    rows := [mkDataRow 45 1 2 3 200 "r" 0 1, mkDataRow 35 1 2 3 200 "r" 0 1,
             mkDataRow 30 1 2 3 200 "r" 0 0, mkDataRow 10 1 2 3 200 "r" 0 0] }

/-! ### Evaluation lemmas for two-element samples -/

theorem meanQ_pair (a b : ℚ) : meanQ [a, b] = (a + b) / 2 := by
  simp [meanQ]

theorem meanQ_single (a : ℚ) : meanQ [a] = a := by
  simp [meanQ]

theorem varQ_pair (a b : ℚ) : varQ [a, b] = (a - b) ^ 2 / 2 := by
  simp [varQ, meanQ_pair]; norm_num; ring

theorem sortQ_pair (a b : ℚ) (h : a ≤ b) : sortQ [a, b] = [a, b] := by
  simp [sortQ, List.insertionSort, List.orderedInsert, h]

theorem metricStatsOf_pair (a b : ℚ) (h : a ≤ b) :
    metricStatsOf [a, b] =
      { avg := (a + b) / 2, var := (a - b) ^ 2 / 2, min := a, max := b,
        p50 := (a + b) / 2, p95 := a + (19 / 20) * (b - a), p99 := a + (99 / 100) * (b - a) } := by
  have hs := sortQ_pair a b h
  simp [metricStatsOf, meanQ_pair, varQ_pair, minQ, maxQ, medianQ, quantileQ, interpAt, hs]
  norm_num

theorem calculate_rps_ne (t a : ℚ) (h : a ≠ 0) :
    calculate_rps t a = PyFloat.fin (t / (a / 1000)) := by
  have : (a / 1000 : ℚ) ≠ 0 := by
    simp [div_eq_zero_iff]; exact h
  simp [calculate_rps, pdiv, this]

/-- The batch summary computed from the example dataset, step by step. -/
theorem batchSummaryOf_example : batchSummaryOf unifiedExample.rows = batchExpected := by
  have hkeys : groupKeys batchKeyCols unifiedExample.rows =
      [[Value.str "r", Value.num 0, Value.num 0], [Value.str "r", Value.num 0, Value.num 1]] := by
    decide
  have hg0 : groupRows batchKeyCols unifiedExample.rows [Value.str "r", Value.num 0, Value.num 0] =
      [mkDataRow 10 1 2 3 200 "r" 0 0, mkDataRow 30 1 2 3 200 "r" 0 0] := by decide
  have hg1 : groupRows batchKeyCols unifiedExample.rows [Value.str "r", Value.num 0, Value.num 1] =
      [mkDataRow 35 1 2 3 200 "r" 0 1, mkDataRow 45 1 2 3 200 "r" 0 1] := by decide
  have hn0rt : numsOf [mkDataRow 10 1 2 3 200 "r" 0 0, mkDataRow 30 1 2 3 200 "r" 0 0]
      "response-time" = [10, 30] := by decide
  have hn0rd : numsOf [mkDataRow 10 1 2 3 200 "r" 0 0, mkDataRow 30 1 2 3 200 "r" 0 0]
      "Response-delay" = [1, 1] := by decide
  have hn0rr : numsOf [mkDataRow 10 1 2 3 200 "r" 0 0, mkDataRow 30 1 2 3 200 "r" 0 0]
      "Response-read" = [2, 2] := by decide
  have hn0rw : numsOf [mkDataRow 10 1 2 3 200 "r" 0 0, mkDataRow 30 1 2 3 200 "r" 0 0]
      "Request-write" = [3, 3] := by decide
  have hn1rt : numsOf [mkDataRow 35 1 2 3 200 "r" 0 1, mkDataRow 45 1 2 3 200 "r" 0 1]
      "response-time" = [35, 45] := by decide
  have hn1rd : numsOf [mkDataRow 35 1 2 3 200 "r" 0 1, mkDataRow 45 1 2 3 200 "r" 0 1]
      "Response-delay" = [1, 1] := by decide
  have hn1rr : numsOf [mkDataRow 35 1 2 3 200 "r" 0 1, mkDataRow 45 1 2 3 200 "r" 0 1]
      "Response-read" = [2, 2] := by decide
  have hn1rw : numsOf [mkDataRow 35 1 2 3 200 "r" 0 1, mkDataRow 45 1 2 3 200 "r" 0 1]
      "Request-write" = [3, 3] := by decide
  have hc0 : List.countP statusGe400
      [mkDataRow 10 1 2 3 200 "r" 0 0, mkDataRow 30 1 2 3 200 "r" 0 0] = 0 := by decide
  have hc1 : List.countP statusGe400
      [mkDataRow 35 1 2 3 200 "r" 0 1, mkDataRow 45 1 2 3 200 "r" 0 1] = 0 := by decide
  have hm0 : metricStatsOf [10, 30] =
      { avg := 20, var := 200, min := 10, max := 30, p50 := 20, p95 := 29, p99 := 149 / 5 } := by
    rw [metricStatsOf_pair 10 30 (by norm_num)]; norm_num
  have hm1 : metricStatsOf [35, 45] =
      { avg := 40, var := 50, min := 35, max := 45, p50 := 40, p95 := 89 / 2, p99 := 449 / 10 } := by
    rw [metricStatsOf_pair 35 45 (by norm_num)]; norm_num
  have hcst : forall c : ℚ, metricStatsOf [c, c] =
      { avg := c, var := 0, min := c, max := c, p50 := c, p95 := c, p99 := c } := by
    intro c
    rw [metricStatsOf_pair c c le_rfl]; norm_num
  have hr0 : calculate_rps 2 20 = PyFloat.fin 100 := by
    rw [calculate_rps_ne 2 20 (by norm_num)]; norm_num
  have hr1 : calculate_rps 2 40 = PyFloat.fin 50 := by
    rw [calculate_rps_ne 2 40 (by norm_num)]; norm_num
  simp [batchSummaryOf, hkeys, hg0, hg1, mkBatchRow, hn0rt, hn0rd, hn0rr, hn0rw,
    hn1rt, hn1rd, hn1rr, hn1rw, error_rate_of, hc0, hc1, hm0, hm1, hcst,
    hr0, hr1, batchExpected]

/-- The run summary computed from the example batch summary. -/
theorem run_summary_example : run_summary_of batchExpected = runExpected := by
  simp only [run_summary_of, batchExpected, runExpected]
  norm_num [List.dedup_cons_of_mem, List.dedup_cons_of_not_mem, List.insertionSort,
    List.orderedInsert, List.filter, KeyLE, keysLE, valLE, meanQ_pair, varQ_pair,
    maxQ, sortQ, round2, roundHalfEven]

/-- The across-runs average view computed from the example batch summary. -/
theorem avg_batch_example : avg_batch_summary batchExpected = avgExpected := by
  simp only [avg_batch_summary, batchExpected, avgExpected]
  norm_num [List.dedup_cons_of_mem, List.dedup_cons_of_not_mem, List.insertionSort,
    List.orderedInsert, List.filter, KeyLE, keysLE, valLE, meanQ_single, pfMean,
    pfDivNat, pfAdd, pdiv]

/-! ### Claim theorems: C1, C2, C3 -/

/-- C1.  The claim states that every `RunMetadata` field, `test_id` included,
is attached to every row of a successfully loaded file, so that the
aggregator's group-by over `(test_id, run, batch)` succeeds on any dataset
built from successfully loaded files.  The code refutes this: the metadata
dict built by `extract_metadata` has no `test_id` key, so a dataset built by
the loader from schema-conforming input has no `test_id` column, and
`generate_summary_stats` fails with `KeyError: 'test_id'` on it. -/
theorem test_id_missing_breaks_grouping :
    "test_id" ∉ metadataKeys ∧
    (conformingLoaded.toOption.map (fun df => decide ("test_id" ∈ df.cols))) = some false ∧
    (conformingLoaded.toOption.map generate_summary_stats) =
      some (Except.error "'test_id'") := by
  refine ⟨by decide, by decide, by decide⟩

/-- C2.  The claim states that a failed invocation (no candidate files, or no
valid data) prints a diagnostic and completes with a non-zero status without
raising.  In the code `main` does print the diagnostic and return `1` without
raising, but the `__main__` block discards `main`'s return value, so the
process completion status is `0` in both failure cases. -/
theorem failure_exit_status_is_zero :
    main "d" [] =
      MainOutcome.errored ["Error: No CSV files found in the provided directory."] 1 ∧
    script_exit_code "d" [] = 0 ∧
    main "d" [{ name := "result-x-0-0.csv", content := Except.error "boom" }] =
      MainOutcome.errored ["Error: No valid data could be loaded."] 1 ∧
    script_exit_code "d" [{ name := "result-x-0-0.csv", content := Except.error "boom" }] = 0 := by
  refine ⟨by decide, by decide, by decide, by decide⟩

/-- C3.  The claim states that the aggregator returns all three summary sets
(batch, run, and across-runs average) to its caller.  The code refutes this:
`generate_summary_stats` computes the across-runs average view internally but
returns only the pair `(batch_summary, run_summary)` — as this evaluation at
a concrete dataset shows, the entire returned value is the two summaries, and
the average view exists only as the separate computation
`avg_batch_summary`. -/
theorem summary_stats_returns_only_two :
    generate_summary_stats unifiedExample = Except.ok (batchExpected, runExpected) ∧
    avg_batch_summary batchExpected = avgExpected := by
  constructor
  · have h1 : batchKeyCols.find? (fun c => !(unifiedExample.cols.contains c)) = none := by decide
    have h2 : (metricsList ++ ["status-code"]).find?
        (fun c => !(unifiedExample.cols.contains c)) = none := by decide
    simp only [generate_summary_stats, h1, h2]
    rw [batchSummaryOf_example, run_summary_example]
  · exact avg_batch_example

/-! ### Loader lemmas and claim C4 -/

/-- The collected tables are exactly the per-file contributions, in listing
order. -/
theorem processFiles_snd (dir : String) :
    ∀ fs : List SrcFile, (processFiles dir fs).2 = fs.filterMap (loadStep dir) := by
  intro fs
  induction fs with
  | nil => simp [processFiles]
  | cons g gs ih =>
    simp only [processFiles, List.filterMap_cons, loadStep]
    cases hEM : extract_metadata (joinPath dir g.name) with
    | none => simpa using ih
    | some m =>
      cases hc : g.content with
      | ok df => simpa using ih
      | error e => simpa using ih

/-- Every candidate whose path parses but whose content fails to load leaves
its warning in the printed output. -/
theorem processFiles_warn_mem (dir : String) (fs : List SrcFile) (f : SrcFile) (e : String)
    (hf : f ∈ fs) (hm : (extract_metadata (joinPath dir f.name)).isSome = true)
    (he : f.content = Except.error e) :
    ("Error reading " ++ joinPath dir f.name ++ ": " ++ e) ∈ (processFiles dir fs).1 := by
  induction fs with
  | nil => cases hf
  | cons g gs ih =>
    rcases List.mem_cons.mp hf with rfl | hf'
    · obtain ⟨m, hm'⟩ := Option.isSome_iff_exists.mp hm
      simp [processFiles, hm', he]
    · have := ih hf'
      simp only [processFiles]
      cases hEM : extract_metadata (joinPath dir g.name) with
      | none => simpa using this
      | some m =>
        cases hc : g.content with
        | ok df => simpa using this
        | error e2 => simp; right; exact this

/-- C4.  In a directory with at least one candidate file: a per-file load
failure emits a warning naming the file and the cause while processing
continues (the result is built from exactly the usable files); the loader
fails with the "no usable input" error exactly when no candidate was usable;
and that failure is distinguishable from the no-matching-files failure, which
occurs exactly when the candidate list is empty. -/
theorem loader_skips_failures_and_distinguishes (directory : String) (listing : List SrcFile)
    (hc : listing.filter (fun f => globMatch f.name) ≠ []) :
    (∀ f e, f ∈ listing → globMatch f.name = true →
      (extract_metadata (joinPath directory f.name)).isSome = true →
      f.content = Except.error e →
      ("Error reading " ++ joinPath directory f.name ++ ": " ++ e) ∈
        (load_and_process_data directory listing).1) ∧
    ((load_and_process_data directory listing).2 =
        Except.error "No valid data could be loaded." ↔
      ∀ f ∈ listing, globMatch f.name = true → loadStep directory f = none) ∧
    ((load_and_process_data directory listing).2 ≠
      Except.error "No CSV files found in the provided directory.") ∧
    ((load_and_process_data directory listing).2 =
        Except.error "No valid data could be loaded." ∨
      (load_and_process_data directory listing).2 =
        Except.ok (concatDFs ((listing.filter (fun f => globMatch f.name)).filterMap
          (loadStep directory)))) ∧
    (∀ l2 : List SrcFile, l2.filter (fun f => globMatch f.name) = [] →
      load_and_process_data directory l2 =
        ([], Except.error "No CSV files found in the provided directory.")) := by
  have hne : ¬ ((listing.filter (fun f => globMatch f.name)).isEmpty = true) := by
    simpa [List.isEmpty_iff] using hc
  have hmemcs : ∀ f, f ∈ listing → globMatch f.name = true →
      f ∈ listing.filter (fun f => globMatch f.name) := by
    intro f hf hg
    exact List.mem_filter.mpr ⟨hf, hg⟩
  have hlast : ∀ l2 : List SrcFile, l2.filter (fun f => globMatch f.name) = [] →
      load_and_process_data directory l2 =
        ([], Except.error "No CSV files found in the provided directory.") := by
    intro l2 h2
    simp [load_and_process_data, h2]
  by_cases hEmpty :
      ((processFiles directory (listing.filter (fun f => globMatch f.name))).2).isEmpty = true
  · have hout : load_and_process_data directory listing =
        ((processFiles directory (listing.filter (fun f => globMatch f.name))).1,
          Except.error "No valid data could be loaded.") := by
      simp only [load_and_process_data]
      rw [if_neg hne, if_pos hEmpty]
    refine ⟨?_, ?_, ?_, ?_, hlast⟩
    · intro f e hf hg hm he
      rw [hout]
      exact processFiles_warn_mem directory _ f e (hmemcs f hf hg) hm he
    · rw [hout]
      simp only [true_iff, eq_self_iff_true]
      have h0 : (listing.filter (fun f => globMatch f.name)).filterMap
          (loadStep directory) = [] := by
        rw [← processFiles_snd]
        exact List.isEmpty_iff.mp hEmpty
      intro f hf hg
      exact (List.filterMap_eq_nil_iff.mp h0) f (hmemcs f hf hg)
    · rw [hout]; simp
    · rw [hout]; left; rfl
  · have hout : load_and_process_data directory listing =
        ((processFiles directory (listing.filter (fun f => globMatch f.name))).1,
          Except.ok (concatDFs
            (processFiles directory (listing.filter (fun f => globMatch f.name))).2)) := by
      simp only [load_and_process_data]
      rw [if_neg hne, if_neg hEmpty]
    refine ⟨?_, ?_, ?_, ?_, hlast⟩
    · intro f e hf hg hm he
      rw [hout]
      exact processFiles_warn_mem directory _ f e (hmemcs f hf hg) hm he
    · rw [hout]
      constructor
      · intro h; cases h
      · intro hall
        exfalso
        apply hEmpty
        rw [List.isEmpty_iff, processFiles_snd]
        exact List.filterMap_eq_nil_iff.mpr (fun f hf =>
          hall f (List.mem_filter.mp hf).1 (by simpa using (List.mem_filter.mp hf).2))
    · rw [hout]; simp
    · rw [hout]; right; rw [processFiles_snd]

/-- Witness for C4 at a concrete mixed directory: the malformed file's warning
is printed and the no-matching-files error does not occur. -/
theorem loader_skips_failures_witness :
    ("Error reading cnc10_1-2/result-r-0-1.csv: ParserError" ∈
        (load_and_process_data "cnc10_1-2" mixedListing).1) ∧
    ((load_and_process_data "cnc10_1-2" mixedListing).2 ≠
      Except.error "No CSV files found in the provided directory.") := by
  have h := loader_skips_failures_and_distinguishes "cnc10_1-2" mixedListing (by decide)
  refine ⟨?_, h.2.2.1⟩
  have he : ("Error reading " ++ joinPath "cnc10_1-2" "result-r-0-1.csv" ++ ": " ++ "ParserError")
      = "Error reading cnc10_1-2/result-r-0-1.csv: ParserError" := by decide
  rw [← he]
  exact h.1 { name := "result-r-0-1.csv", content := Except.error "ParserError" } "ParserError"
    (by decide) (by decide) (by decide) rfl

/-! ### Claims C5 and C6: derived batch metrics -/

/-- C5.  For every batch-summary group: `rps` is exactly
`calculate_rps(total_requests, avg_response_time)`, that function computes
`total_requests / (avg / 1000)` whenever the average is nonzero, and a zero
average yields the non-finite value `inf` (the division is total — nothing is
raised). -/
theorem rps_formula_and_degenerate (k : List Value) (grp : List Row) (h : grp ≠ []) :
    (mkBatchRow k grp).rps =
      calculate_rps ((mkBatchRow k grp).total_requests : ℚ) ((mkBatchRow k grp).rt.avg) ∧
    (∀ t a : ℚ, a ≠ 0 → calculate_rps t a = PyFloat.fin (t / (a / 1000))) ∧
    ((mkBatchRow k grp).rt.avg = 0 →
      (mkBatchRow k grp).rps = PyFloat.inf ∧ ((mkBatchRow k grp).rps).isFinite = false) := by
  refine ⟨rfl, fun t a ha => calculate_rps_ne t a ha, fun h0 => ?_⟩
  have hn : (0 : ℚ) < (grp.length : ℚ) := by
    have := List.length_pos.mpr h
    exact_mod_cast this
  have hrps : (mkBatchRow k grp).rps = PyFloat.inf := by
    simp only [mkBatchRow] at h0 ⊢
    rw [calculate_rps, h0]
    simp [pdiv, hn.ne', hn]
  exact ⟨hrps, by rw [hrps]; rfl⟩

/-- Witness for C5: a one-request group whose response time is `0` produces
`rps = inf`. -/
theorem rps_degenerate_witness :
    ([mkDataRow 0 1 2 3 200 "r" 0 0] ≠ ([] : List Row)) ∧
    (mkBatchRow [Value.str "r", Value.num 0, Value.num 0]
      [mkDataRow 0 1 2 3 200 "r" 0 0]).rps = PyFloat.inf := by
  have havg : (mkBatchRow [Value.str "r", Value.num 0, Value.num 0]
      [mkDataRow 0 1 2 3 200 "r" 0 0]).rt.avg = 0 := by
    simp [mkBatchRow, metricStatsOf,
      show numsOf [mkDataRow 0 1 2 3 200 "r" 0 0] "response-time" = [0] from by decide,
      meanQ_single]
  exact ⟨by decide,
    ((rps_formula_and_degenerate [Value.str "r", Value.num 0, Value.num 0]
      [mkDataRow 0 1 2 3 200 "r" 0 0] (by decide)).2.2 havg).1⟩

/-- C6.  For every nonempty group: the error rate is
`100 · (rows with status ≥ 400) / (total rows)`, it always lies in
`[0, 100]`, and a group whose every row has status code `500` has error rate
exactly `100`. -/
theorem error_rate_formula_bounds (grp : List Row) (h : grp ≠ []) :
    error_rate_of grp = 100 * (grp.countP statusGe400 : ℚ) / (grp.length : ℚ) ∧
    0 ≤ error_rate_of grp ∧ error_rate_of grp ≤ 100 ∧
    ((∀ r ∈ grp, getVal r "status-code" = Value.num 500) → error_rate_of grp = 100) := by
  have hn : (0 : ℚ) < (grp.length : ℚ) := by
    exact_mod_cast List.length_pos.mpr h
  have hcle : ((grp.countP statusGe400 : ℕ) : ℚ) ≤ (grp.length : ℚ) := by
    exact_mod_cast List.countP_le_length statusGe400
  refine ⟨by rw [error_rate_of]; ring, ?_, ?_, ?_⟩
  · have : (0 : ℚ) ≤ ((grp.countP statusGe400 : ℕ) : ℚ) / (grp.length : ℚ) :=
      div_nonneg (by positivity) hn.le
    rw [error_rate_of]
    nlinarith
  · rw [error_rate_of]
    have : ((grp.countP statusGe400 : ℕ) : ℚ) / (grp.length : ℚ) ≤ 1 :=
      (div_le_one hn).mpr hcle
    nlinarith
  · intro hall
    have hcnt : grp.countP statusGe400 = grp.length := by
      apply List.countP_eq_length.mpr
      intro r hr
      rw [statusGe400, hall r hr]
      norm_num
    rw [error_rate_of, hcnt, div_self hn.ne']
    norm_num

/-- Witness for C6: a group whose single row has status code `500` has error
rate `100`. -/
theorem error_rate_witness :
    ([mkDataRow 1 1 1 1 500 "r" 0 0] ≠ ([] : List Row)) ∧
    error_rate_of [mkDataRow 1 1 1 1 500 "r" 0 0] = 100 :=
  ⟨by decide, (error_rate_formula_bounds _ (by decide)).2.2.2 (by decide)⟩


/-! ### Sorted-sample toolkit, linear interpolation, claims C7 and C8 -/

theorem sortQ_sorted (xs : List ℚ) : (sortQ xs).Sorted (· ≤ ·) :=
  List.sorted_insertionSort _ xs

theorem sortQ_perm (xs : List ℚ) : (sortQ xs).Perm xs :=
  List.perm_insertionSort _ xs

theorem sortQ_length (xs : List ℚ) : (sortQ xs).length = xs.length :=
  (sortQ_perm xs).length_eq

theorem getD_in_range {s : List ℚ} {k : ℕ} (hk : k < s.length) (d : ℚ) :
    s.getD k d = s.getD k 0 := by
  rw [List.getD_eq_getElem?_getD, List.getD_eq_getElem?_getD, List.getElem?_eq_getElem hk]
  rfl

theorem sorted_getD_mono {s : List ℚ} (hs : s.Sorted (· ≤ ·)) {i j : ℕ}
    (hij : i ≤ j) (hj : j < s.length) : s.getD i 0 ≤ s.getD j 0 := by
  have hi : i < s.length := lt_of_le_of_lt hij hj
  rw [List.getD_eq_getElem?_getD, List.getD_eq_getElem?_getD,
    List.getElem?_eq_getElem hi, List.getElem?_eq_getElem hj]
  simp only [Option.getD_some]
  rcases eq_or_lt_of_le hij with rfl | hlt
  · exact le_refl _
  · exact (List.pairwise_iff_getElem.mp hs) i j hi hj hlt

theorem floor_toNat_cast {h : ℚ} (h0 : 0 ≤ h) : ((⌊h⌋.toNat : ℕ) : ℚ) = (⌊h⌋ : ℚ) := by
  have : (0 : ℤ) ≤ ⌊h⌋ := Int.le_floor.mpr (by exact_mod_cast h0)
  exact_mod_cast congrArg (fun z : ℤ => (z : ℚ)) (Int.toNat_of_nonneg this)

theorem floor_toNat_le {h : ℚ} (h0 : 0 ≤ h) : ((⌊h⌋.toNat : ℕ) : ℚ) ≤ h := by
  rw [floor_toNat_cast h0]; exact Int.floor_le h

theorem lt_floor_toNat_succ {h : ℚ} (h0 : 0 ≤ h) : h < ((⌊h⌋.toNat : ℕ) : ℚ) + 1 := by
  rw [floor_toNat_cast h0]; exact Int.lt_floor_add_one h

theorem floor_toNat_lt_length {s : List ℚ} (hne : s ≠ []) {h : ℚ} (h0 : 0 ≤ h)
    (hub : h ≤ (s.length : ℚ) - 1) : ⌊h⌋.toNat < s.length := by
  have hpos : 0 < s.length := List.length_pos.mpr hne
  have hcast : ((⌊h⌋.toNat : ℕ) : ℚ) ≤ (s.length : ℚ) - 1 :=
    le_trans (floor_toNat_le h0) hub
  have : ((⌊h⌋.toNat : ℕ) : ℚ) ≤ ((s.length - 1 : ℕ) : ℚ) := by
    rwa [Nat.cast_sub hpos, Nat.cast_one]
  have hle : ⌊h⌋.toNat ≤ s.length - 1 := by exact_mod_cast this
  omega

theorem interp_lo_le_hi {s : List ℚ} (hs : s.Sorted (· ≤ ·)) {i : ℕ} (hi : i < s.length) :
    s.getD i 0 ≤ s.getD (i + 1) (s.getD i 0) := by
  by_cases hsucc : i + 1 < s.length
  · rw [getD_in_range hsucc]
    exact sorted_getD_mono hs (Nat.le_succ i) hsucc
  · have hnone : s.getD (i + 1) (s.getD i 0) = s.getD i 0 := by
      rw [List.getD_eq_getElem?_getD s (i + 1),
        List.getElem?_eq_none (by omega : s.length ≤ i + 1)]
      rfl
    rw [hnone]

theorem getD_le_interpAt {s : List ℚ} (hs : s.Sorted (· ≤ ·)) {h : ℚ} (h0 : 0 ≤ h)
    (hin : ⌊h⌋.toNat < s.length) : s.getD ⌊h⌋.toNat 0 ≤ interpAt s h := by
  have hg0 : 0 ≤ h - ((⌊h⌋.toNat : ℕ) : ℚ) := by
    have := floor_toNat_le h0; linarith
  have hlh := interp_lo_le_hi hs hin
  simp only [interpAt]
  nlinarith [hlh, hg0]

theorem interpAt_le_getD_succ {s : List ℚ} (hs : s.Sorted (· ≤ ·)) {h : ℚ} (h0 : 0 ≤ h)
    (hsucc : ⌊h⌋.toNat + 1 < s.length) :
    interpAt s h ≤ s.getD (⌊h⌋.toNat + 1) 0 := by
  have hg1 : h - ((⌊h⌋.toNat : ℕ) : ℚ) ≤ 1 := by
    have := lt_floor_toNat_succ h0; linarith
  have hg0 : 0 ≤ h - ((⌊h⌋.toNat : ℕ) : ℚ) := by
    have := floor_toNat_le h0; linarith
  have hin : ⌊h⌋.toNat < s.length := by omega
  have hlh := interp_lo_le_hi hs hin
  simp only [interpAt]
  rw [getD_in_range hsucc] at hlh ⊢
  nlinarith [hlh, hg0, hg1]


theorem interpAt_mono {s : List ℚ} (hs : s.Sorted (· ≤ ·)) (hne : s ≠ []) {h1 h2 : ℚ}
    (h10 : 0 ≤ h1) (h12 : h1 ≤ h2) (h2n : h2 ≤ (s.length : ℚ) - 1) :
    interpAt s h1 ≤ interpAt s h2 := by
  have h20 : 0 ≤ h2 := le_trans h10 h12
  have hi2n : ⌊h2⌋.toNat < s.length := floor_toNat_lt_length hne h20 h2n
  have hi1n : ⌊h1⌋.toNat < s.length := floor_toNat_lt_length hne h10 (le_trans h12 h2n)
  have hii : ⌊h1⌋.toNat ≤ ⌊h2⌋.toNat := Int.toNat_le_toNat (Int.floor_le_floor h12)
  rcases eq_or_lt_of_le hii with heq | hlt
  · have hg12 : h1 - ((⌊h1⌋.toNat : ℕ) : ℚ) ≤ h2 - ((⌊h2⌋.toNat : ℕ) : ℚ) := by
      rw [← heq]; linarith
    have hlh := interp_lo_le_hi hs hi1n
    simp only [interpAt, ← heq]
    nlinarith [hlh, hg12]
  · calc interpAt s h1 ≤ s.getD (⌊h1⌋.toNat + 1) 0 :=
          interpAt_le_getD_succ hs h10 (by omega)
    _ ≤ s.getD ⌊h2⌋.toNat 0 := sorted_getD_mono hs (by omega) hi2n
    _ ≤ interpAt s h2 := getD_le_interpAt hs h20 hi2n

theorem interpAt_zero (s : List ℚ) : interpAt s 0 = s.getD 0 0 := by
  simp [interpAt]

theorem interpAt_top {s : List ℚ} (hne : s ≠ []) :
    interpAt s ((s.length : ℚ) - 1) = s.getD (s.length - 1) 0 := by
  have hpos : 0 < s.length := List.length_pos.mpr hne
  have hcast : ((s.length : ℚ) - 1) = ((s.length - 1 : ℕ) : ℚ) := by
    rw [Nat.cast_sub hpos, Nat.cast_one]
  have hfl : ⌊((s.length - 1 : ℕ) : ℚ)⌋ = (s.length - 1 : ℕ) := Int.floor_natCast _
  simp only [interpAt, hcast, hfl, Int.toNat_natCast, sub_self, zero_mul, add_zero]


theorem minQ_eq_getD (xs : List ℚ) : minQ xs = (sortQ xs).getD 0 0 := by
  rw [minQ, List.headD_eq_head?, List.head?_eq_getElem?, ← List.getD_eq_getElem?_getD]

theorem maxQ_eq_getD (xs : List ℚ) : maxQ xs = (sortQ xs).getD ((sortQ xs).length - 1) 0 := by
  rw [maxQ, List.getLastD_eq_getLast?, List.getLast?_eq_getElem?, ← List.getD_eq_getElem?_getD]

theorem medianQ_eq_interp {xs : List ℚ} (hne : xs ≠ []) :
    medianQ xs = interpAt (sortQ xs) ((1 / 2) * ((xs.length : ℚ) - 1)) := by
  have hlen : (sortQ xs).length = xs.length := sortQ_length xs
  have hpos : 0 < xs.length := List.length_pos.mpr hne
  rcases Nat.even_or_odd xs.length with ⟨k, hk⟩ | ⟨k, hk⟩
  · -- even: n = k + k with k ≥ 1
    have hkpos : 0 < k := by omega
    have hh : (1 / 2 : ℚ) * ((xs.length : ℚ) - 1) = ((k - 1 : ℕ) : ℚ) + 1 / 2 := by
      rw [hk]; push_cast [Nat.cast_sub hkpos]; ring
    have hfl : ⌊((k - 1 : ℕ) : ℚ) + 1 / 2⌋ = ((k - 1 : ℕ) : ℤ) := by
      rw [Int.floor_eq_iff]
      constructor
      · push_cast; linarith
      · push_cast; linarith
    have hsucc : (k - 1) + 1 = k := by omega
    have hkn : k < (sortQ xs).length := by omega
    rw [medianQ, hh]
    simp only [interpAt, hfl, Int.toNat_natCast, hsucc]
    rw [getD_in_range hkn]
    simp only [hlen]
    rw [if_neg hpos.ne', if_neg (by omega : ¬ xs.length % 2 = 1),
      (by omega : xs.length / 2 = k)]
    ring
  · -- odd: n = 2k + 1
    have hh : (1 / 2 : ℚ) * ((xs.length : ℚ) - 1) = ((k : ℕ) : ℚ) := by
      rw [hk]; push_cast; ring
    rw [medianQ, hh]
    simp only [interpAt, Int.floor_natCast, Int.toNat_natCast, sub_self, zero_mul, add_zero,
      hlen]
    rw [if_neg hpos.ne', if_pos (by omega : xs.length % 2 = 1),
      (by omega : xs.length / 2 = k)]


theorem quantileQ_eq_interp {xs : List ℚ} (hne : xs ≠ []) (q : ℚ) :
    quantileQ q xs = interpAt (sortQ xs) (q * ((xs.length : ℚ) - 1)) := by
  rw [quantileQ, if_neg (by simpa [List.isEmpty_iff] using hne)]

theorem mem_le_maxQ {xs : List ℚ} {x : ℚ} (hx : x ∈ xs) :
    minQ xs ≤ x ∧ x ≤ maxQ xs := by
  have hs := sortQ_sorted xs
  have hxs : x ∈ sortQ xs := ((sortQ_perm xs).mem_iff).mpr hx
  obtain ⟨⟨i, hi⟩, hget⟩ := List.mem_iff_get.mp hxs
  have hx_eq : (sortQ xs).getD i 0 = x := by
    rw [List.getD_eq_getElem?_getD, List.getElem?_eq_getElem hi]
    simpa [List.get_eq_getElem] using hget
  constructor
  · rw [minQ_eq_getD, ← hx_eq]
    exact sorted_getD_mono hs (Nat.zero_le i) hi
  · rw [maxQ_eq_getD, ← hx_eq]
    exact sorted_getD_mono hs (by omega) (by omega)

theorem meanQ_bounds {xs : List ℚ} (hne : xs ≠ []) :
    minQ xs ≤ meanQ xs ∧ meanQ xs ≤ maxQ xs := by
  have hn : (0 : ℚ) < (xs.length : ℚ) := by exact_mod_cast List.length_pos.mpr hne
  have hlow : (xs.length : ℚ) * minQ xs ≤ xs.sum := by
    have := List.card_nsmul_le_sum xs (minQ xs) (fun x hx => (mem_le_maxQ hx).1)
    rwa [nsmul_eq_mul] at this
  have hhigh : xs.sum ≤ (xs.length : ℚ) * maxQ xs := by
    have := List.sum_le_card_nsmul xs (maxQ xs) (fun x hx => (mem_le_maxQ hx).2)
    rwa [nsmul_eq_mul] at this
  constructor
  · rw [meanQ, le_div_iff₀ hn]
    linarith [hlow]
  · rw [meanQ, div_le_iff₀ hn]
    linarith [hhigh]


/-- C8.  For every nonempty group of samples of a timing metric, the computed
aggregates satisfy `min ≤ p50 ≤ p95 ≤ p99 ≤ max` and `min ≤ mean ≤ max`. -/
theorem aggregate_order_chain (xs : List ℚ) (hne : xs ≠ []) :
    (metricStatsOf xs).min ≤ (metricStatsOf xs).p50 ∧
    (metricStatsOf xs).p50 ≤ (metricStatsOf xs).p95 ∧
    (metricStatsOf xs).p95 ≤ (metricStatsOf xs).p99 ∧
    (metricStatsOf xs).p99 ≤ (metricStatsOf xs).max ∧
    (metricStatsOf xs).min ≤ (metricStatsOf xs).avg ∧
    (metricStatsOf xs).avg ≤ (metricStatsOf xs).max := by
  have hs := sortQ_sorted xs
  have hlen := sortQ_length xs
  have hsne : sortQ xs ≠ [] := by
    intro h
    apply hne
    have := sortQ_length xs
    rw [h] at this
    exact List.length_eq_zero.mp this.symm
  have hc0 : (0 : ℚ) ≤ (xs.length : ℚ) - 1 := by
    have : (1 : ℚ) ≤ (xs.length : ℚ) := by
      exact_mod_cast Nat.one_le_iff_ne_zero.mpr (fun h => hne (List.length_eq_zero.mp h))
    linarith
  set c : ℚ := (xs.length : ℚ) - 1 with hcdef
  have hmin : (metricStatsOf xs).min = interpAt (sortQ xs) 0 := by
    simp only [metricStatsOf, minQ_eq_getD, interpAt_zero]
  have hmax : (metricStatsOf xs).max = interpAt (sortQ xs) c := by
    have : c = ((sortQ xs).length : ℚ) - 1 := by rw [hlen]
    simp only [metricStatsOf, maxQ_eq_getD, this, interpAt_top hsne]
  have hp50 : (metricStatsOf xs).p50 = interpAt (sortQ xs) ((1 / 2) * c) := by
    simp only [metricStatsOf]
    exact medianQ_eq_interp hne
  have hp95 : (metricStatsOf xs).p95 = interpAt (sortQ xs) ((95 / 100) * c) := by
    simp only [metricStatsOf]
    exact quantileQ_eq_interp hne _
  have hp99 : (metricStatsOf xs).p99 = interpAt (sortQ xs) ((99 / 100) * c) := by
    simp only [metricStatsOf]
    exact quantileQ_eq_interp hne _
  have hcQ : c ≤ ((sortQ xs).length : ℚ) - 1 := by rw [hlen]
  refine ⟨?_, ?_, ?_, ?_, ?_, ?_⟩
  · rw [hmin, hp50]
    exact interpAt_mono hs hsne le_rfl (by nlinarith) (by nlinarith [hcQ])
  · rw [hp50, hp95]
    exact interpAt_mono hs hsne (by nlinarith) (by nlinarith) (by nlinarith [hcQ])
  · rw [hp95, hp99]
    exact interpAt_mono hs hsne (by nlinarith) (by nlinarith) (by nlinarith [hcQ])
  · rw [hp99, hmax]
    exact interpAt_mono hs hsne (by nlinarith) (by nlinarith) (by nlinarith [hcQ])
  · simpa only [metricStatsOf] using (meanQ_bounds hne).1
  · simpa only [metricStatsOf] using (meanQ_bounds hne).2


theorem interp_eq_percentileLinear {xs : List ℚ} (hne : xs ≠ []) {q : ℚ}
    (hq0 : 0 ≤ q) (hq1 : q ≤ 1) :
    interpAt (sortQ xs) (q * ((xs.length : ℚ) - 1)) = percentileLinear q xs := by
  have hlen : (sortQ xs).length = xs.length := sortQ_length xs
  have hpos : 0 < xs.length := List.length_pos.mpr hne
  have hc0 : (0 : ℚ) ≤ (xs.length : ℚ) - 1 := by
    have : (1 : ℚ) ≤ (xs.length : ℚ) := by exact_mod_cast hpos
    linarith
  set h : ℚ := q * ((xs.length : ℚ) - 1) with hhdef
  have h0 : 0 ≤ h := mul_nonneg hq0 hc0
  have hub : h ≤ (xs.length : ℚ) - 1 := by nlinarith
  have hicast : ((⌊h⌋.toNat : ℕ) : ℚ) = (⌊h⌋ : ℚ) := floor_toNat_cast h0
  have hsne : sortQ xs ≠ [] := by
    intro he
    rw [← List.length_eq_zero, hlen] at he
    exact hpos.ne' he
  have hin : ⌊h⌋.toNat < (sortQ xs).length :=
    floor_toNat_lt_length hsne h0 (by rw [hlen]; exact hub)
  by_cases hint : h = (⌊h⌋ : ℚ)
  · have hceil : ⌈h⌉ = ⌊h⌋ := by rw [hint]; exact Int.ceil_intCast _
    have hg : h - ((⌊h⌋.toNat : ℕ) : ℚ) = 0 := by rw [hicast]; linarith
    simp only [interpAt, percentileLinear, hceil, hg, ← hicast]
    simp [sub_self]
  · have hlt : (⌊h⌋ : ℚ) < h := lt_of_le_of_ne (Int.floor_le h) (fun e => hint e.symm)
    have hceil : ⌈h⌉ = ⌊h⌋ + 1 := by
      apply le_antisymm
      · exact Int.ceil_le.mpr (by push_cast; linarith [Int.lt_floor_add_one h])
      · exact Int.add_one_le_iff.mpr (Int.lt_ceil.mpr hlt)
    have hfl0 : (0 : ℤ) ≤ ⌊h⌋ := Int.le_floor.mpr (by exact_mod_cast h0)
    have htn : (⌊h⌋ + 1).toNat = ⌊h⌋.toNat + 1 := by omega
    have hsucc_in : ⌊h⌋.toNat + 1 < (sortQ xs).length := by
      rcases lt_or_eq_of_le (Nat.succ_le_of_lt hin) with hlt2 | heq
      · exact hlt2
      · exfalso
        have : ((⌊h⌋.toNat : ℕ) : ℚ) = ((sortQ xs).length : ℚ) - 1 := by
          have : (⌊h⌋.toNat : ℕ) = (sortQ xs).length - 1 := by omega
          rw [this, Nat.cast_sub (by omega), Nat.cast_one]
        rw [hicast, hlen] at this
        have : h = (⌊h⌋ : ℚ) := le_antisymm (by rw [this]; exact hub) hlt.le
        exact hint this
    simp only [interpAt, percentileLinear, hceil, htn, ← hicast]
    rw [getD_in_range hsucc_in]

/-- C7.  For every nonempty sample: the batch summary's `p50` (computed with
the median midpoint rule), `p95` and `p99` (computed with the pandas default
quantile) all coincide with the spec's linear interpolation between order
statistics, and every quantile the program takes (any `q ∈ [0, 1]`, e.g. the
overall `p99` of the findings) follows the same convention. -/
theorem percentiles_use_linear_interpolation (xs : List ℚ) (hne : xs ≠ []) :
    (metricStatsOf xs).p50 = percentileLinear (1 / 2) xs ∧
    (metricStatsOf xs).p95 = percentileLinear (95 / 100) xs ∧
    (metricStatsOf xs).p99 = percentileLinear (99 / 100) xs ∧
    (∀ q : ℚ, 0 ≤ q → q ≤ 1 → quantileQ q xs = percentileLinear q xs) := by
  refine ⟨?_, ?_, ?_, fun q hq0 hq1 => ?_⟩
  · rw [show (metricStatsOf xs).p50 = medianQ xs from rfl, medianQ_eq_interp hne]
    exact interp_eq_percentileLinear hne (by norm_num) (by norm_num)
  · rw [show (metricStatsOf xs).p95 = quantileQ (95 / 100) xs from rfl,
      quantileQ_eq_interp hne]
    exact interp_eq_percentileLinear hne (by norm_num) (by norm_num)
  · rw [show (metricStatsOf xs).p99 = quantileQ (99 / 100) xs from rfl,
      quantileQ_eq_interp hne]
    exact interp_eq_percentileLinear hne (by norm_num) (by norm_num)
  · rw [quantileQ_eq_interp hne]
    exact interp_eq_percentileLinear hne hq0 hq1

/-- Witness for C7 at a concrete even-length sample. -/
theorem percentiles_linear_witness :
    (([1, 2, 4, 8] : List ℚ) ≠ []) ∧
    (metricStatsOf [1, 2, 4, 8]).p50 = percentileLinear (1 / 2) [1, 2, 4, 8] :=
  ⟨by decide, (percentiles_use_linear_interpolation [1, 2, 4, 8] (by decide)).1⟩

/-- Witness for C8 at a concrete sample. -/
theorem aggregate_order_chain_witness :
    (([3, 1, 2] : List ℚ) ≠ []) ∧
    ((metricStatsOf [3, 1, 2]).min ≤ (metricStatsOf [3, 1, 2]).p50 ∧
     (metricStatsOf [3, 1, 2]).p50 ≤ (metricStatsOf [3, 1, 2]).p95 ∧
     (metricStatsOf [3, 1, 2]).p95 ≤ (metricStatsOf [3, 1, 2]).p99 ∧
     (metricStatsOf [3, 1, 2]).p99 ≤ (metricStatsOf [3, 1, 2]).max ∧
     (metricStatsOf [3, 1, 2]).min ≤ (metricStatsOf [3, 1, 2]).avg ∧
     (metricStatsOf [3, 1, 2]).avg ≤ (metricStatsOf [3, 1, 2]).max) :=
  ⟨by decide, aggregate_order_chain [3, 1, 2] (by decide)⟩

/-! ### Key-order instances and order independence (claim C9) -/

theorem strLEb_total : ∀ a b : List Char, strLEb a b = true ∨ strLEb b a = true := by
  intro a
  induction a with
  | nil => intro b; left; rfl
  | cons x xs ih =>
    intro b
    cases b with
    | nil => right; rfl
    | cons y ys =>
      by_cases hxy : x = y
      · subst hxy
        simp only [strLEb, if_pos rfl]
        exact ih ys
      · rcases lt_or_gt_of_ne hxy with hlt | hgt
        · left; simp [strLEb, hxy, hlt]
        · right; simp [strLEb, Ne.symm hxy, hgt]

theorem strLEb_antisymm : ∀ a b : List Char,
    strLEb a b = true → strLEb b a = true → a = b := by
  intro a
  induction a with
  | nil =>
    intro b _ hba
    cases b with
    | nil => rfl
    | cons y ys => exact absurd hba (by simp [strLEb])
  | cons x xs ih =>
    intro b hab hba
    cases b with
    | nil => exact absurd hab (by simp [strLEb])
    | cons y ys =>
      by_cases hxy : x = y
      · subst hxy
        simp only [strLEb, if_pos rfl] at hab hba
        rw [ih ys hab hba]
      · simp only [strLEb, if_neg hxy, if_neg (Ne.symm hxy), decide_eq_true_eq] at hab hba
        exact absurd hab (asymm hba)

theorem strLEb_trans : ∀ a b c : List Char,
    strLEb a b = true → strLEb b c = true → strLEb a c = true := by
  intro a
  induction a with
  | nil => intro b c _ _; rfl
  | cons x xs ih =>
    intro b c hab hbc
    cases b with
    | nil => exact absurd hab (by simp [strLEb])
    | cons y ys =>
      cases c with
      | nil => exact absurd hbc (by simp [strLEb])
      | cons z zs =>
        by_cases hxy : x = y <;> by_cases hyz : y = z
        · subst hxy; subst hyz
          simp only [strLEb, if_pos rfl] at hab hbc ⊢
          exact ih ys zs hab hbc
        · subst hxy
          simp only [strLEb, if_neg hyz] at hbc
          simp [strLEb, hyz, hbc]
        · subst hyz
          simp only [strLEb, if_neg hxy] at hab
          simp [strLEb, hxy, hab]
        · simp only [strLEb, if_neg hxy, decide_eq_true_eq] at hab
          simp only [strLEb, if_neg hyz, decide_eq_true_eq] at hbc
          have hxz : x < z := lt_trans hab hbc
          simp [strLEb, ne_of_lt hxz, hxz]

theorem valLE_total : ∀ a b : Value, valLE a b = true ∨ valLE b a = true := by
  intro a b
  cases a <;> cases b <;> simp [valLE]
  · exact le_total _ _
  · exact strLEb_total _ _

theorem valLE_antisymm : ∀ a b : Value, valLE a b = true → valLE b a = true → a = b := by
  intro a b hab hba
  cases a <;> cases b
  · exact congrArg Value.num
      (le_antisymm (by simpa [valLE] using hab) (by simpa [valLE] using hba))
  · exact absurd hba (by simp [valLE])
  · exact absurd hab (by simp [valLE])
  · exact congrArg Value.str (String.ext
      (strLEb_antisymm _ _ (by simpa [valLE] using hab) (by simpa [valLE] using hba)))

theorem valLE_trans : ∀ a b c : Value,
    valLE a b = true → valLE b c = true → valLE a c = true := by
  intro a b c hab hbc
  cases a <;> cases b <;> cases c <;>
    simp only [valLE, decide_eq_true_eq] at hab hbc ⊢ <;> try trivial
  · exact le_trans hab hbc
  · exact strLEb_trans _ _ _ hab hbc

theorem keysLE_total : ∀ a b : List Value, keysLE a b = true ∨ keysLE b a = true := by
  intro a
  induction a with
  | nil => intro b; left; rfl
  | cons x xs ih =>
    intro b
    cases b with
    | nil => right; rfl
    | cons y ys =>
      by_cases hxy : x = y
      · subst hxy
        simp only [keysLE, if_pos rfl]
        exact ih ys
      · simp only [keysLE, if_neg hxy, if_neg (Ne.symm hxy)]
        exact valLE_total x y

theorem keysLE_antisymm : ∀ a b : List Value,
    keysLE a b = true → keysLE b a = true → a = b := by
  intro a
  induction a with
  | nil =>
    intro b _ hba
    cases b with
    | nil => rfl
    | cons y ys => exact absurd hba (by simp [keysLE])
  | cons x xs ih =>
    intro b hab hba
    cases b with
    | nil => exact absurd hab (by simp [keysLE])
    | cons y ys =>
      by_cases hxy : x = y
      · subst hxy
        simp only [keysLE, if_pos rfl] at hab hba
        rw [ih ys hab hba]
      · simp only [keysLE, if_neg hxy, if_neg (Ne.symm hxy)] at hab hba
        exact absurd (valLE_antisymm x y hab hba) hxy

theorem keysLE_trans : ∀ a b c : List Value,
    keysLE a b = true → keysLE b c = true → keysLE a c = true := by
  intro a
  induction a with
  | nil => intro b c _ _; rfl
  | cons x xs ih =>
    intro b c hab hbc
    cases b with
    | nil => exact absurd hab (by simp [keysLE])
    | cons y ys =>
      cases c with
      | nil => exact absurd hbc (by simp [keysLE])
      | cons z zs =>
        by_cases hxy : x = y <;> by_cases hyz : y = z
        · subst hxy; subst hyz
          simp only [keysLE, if_pos rfl] at hab hbc ⊢
          exact ih ys zs hab hbc
        · subst hxy
          simp only [keysLE, if_neg hyz] at hbc ⊢
          exact hbc
        · subst hyz
          simp only [keysLE, if_neg hxy] at hab ⊢
          exact hab
        · simp only [keysLE, if_neg hxy] at hab
          simp only [keysLE, if_neg hyz] at hbc
          have hxz : x ≠ z := by
            intro he
            subst he
            exact hxy (valLE_antisymm x y hab hbc)
          simp only [keysLE, if_neg hxz]
          exact valLE_trans x y z hab hbc

instance : IsTotal (List Value) KeyLE := ⟨keysLE_total⟩

instance : IsTrans (List Value) KeyLE := ⟨keysLE_trans⟩

instance : IsAntisymm (List Value) KeyLE := ⟨keysLE_antisymm⟩


theorem sortQ_perm_eq {xs ys : List ℚ} (h : xs.Perm ys) : sortQ xs = sortQ ys :=
  List.eq_of_perm_of_sorted ((sortQ_perm xs).trans (h.trans (sortQ_perm ys).symm))
    (sortQ_sorted xs) (sortQ_sorted ys)

theorem meanQ_perm {xs ys : List ℚ} (h : xs.Perm ys) : meanQ xs = meanQ ys := by
  rw [meanQ, meanQ, h.sum_eq, h.length_eq]

theorem varQ_perm {xs ys : List ℚ} (h : xs.Perm ys) : varQ xs = varQ ys := by
  rw [varQ, varQ, meanQ_perm h, (h.map _).sum_eq, h.length_eq]

theorem isEmpty_perm {α : Type} {xs ys : List α} (h : xs.Perm ys) :
    xs.isEmpty = ys.isEmpty := by
  cases xs with
  | nil => rw [← h.nil_eq]
  | cons a t =>
    cases ys with
    | nil => exact absurd h.eq_nil (by simp)
    | cons b u => rfl

theorem quantileQ_perm (q : ℚ) {xs ys : List ℚ} (h : xs.Perm ys) :
    quantileQ q xs = quantileQ q ys := by
  rw [quantileQ, quantileQ, sortQ_perm_eq h, h.length_eq, isEmpty_perm h]

theorem medianQ_perm {xs ys : List ℚ} (h : xs.Perm ys) : medianQ xs = medianQ ys := by
  rw [medianQ, medianQ, sortQ_perm_eq h]

theorem metricStatsOf_perm {xs ys : List ℚ} (h : xs.Perm ys) :
    metricStatsOf xs = metricStatsOf ys := by
  rw [metricStatsOf, metricStatsOf, meanQ_perm h, varQ_perm h, medianQ_perm h,
    quantileQ_perm _ h, quantileQ_perm _ h, minQ, minQ, maxQ, maxQ, sortQ_perm_eq h]

theorem error_rate_of_perm {xs ys : List Row} (h : xs.Perm ys) :
    error_rate_of xs = error_rate_of ys := by
  rw [error_rate_of, error_rate_of, h.countP_eq, h.length_eq]

theorem mkBatchRow_perm (k : List Value) {xs ys : List Row} (h : xs.Perm ys) :
    mkBatchRow k xs = mkBatchRow k ys := by
  have hn : ∀ c : String, (numsOf xs c).Perm (numsOf ys c) := fun c => h.filterMap _
  rw [mkBatchRow, mkBatchRow, h.length_eq, error_rate_of_perm h,
    metricStatsOf_perm (hn "response-time"), metricStatsOf_perm (hn "Response-delay"),
    metricStatsOf_perm (hn "Response-read"), metricStatsOf_perm (hn "Request-write")]

theorem groupKeys_perm (gcols : List String) {xs ys : List Row} (h : xs.Perm ys) :
    groupKeys gcols xs = groupKeys gcols ys := by
  have h1 : ((xs.map (keyOf gcols)).dedup).Perm ((ys.map (keyOf gcols)).dedup) :=
    (h.map _).dedup
  exact List.eq_of_perm_of_sorted
    ((List.perm_insertionSort KeyLE _).trans
      (h1.trans (List.perm_insertionSort KeyLE _).symm))
    (List.sorted_insertionSort KeyLE _) (List.sorted_insertionSort KeyLE _)

theorem batchSummaryOf_perm {xs ys : List Row} (h : xs.Perm ys) :
    batchSummaryOf xs = batchSummaryOf ys := by
  rw [batchSummaryOf, batchSummaryOf, groupKeys_perm batchKeyCols h]
  apply List.map_congr_left
  intro k _
  exact mkBatchRow_perm k (h.filter _)


/-- C9.  Aggregation is order independent: for any two unified datasets with
the same columns whose rows are permutations of each other,
`generate_summary_stats` returns identical batch and run summaries (the
group keys are emitted in sorted order and every group aggregate is invariant
under row permutation). -/
theorem aggregation_order_independent (d d' : DataFrame)
    (hcols : d.cols = d'.cols) (hrows : d.rows.Perm d'.rows) :
    generate_summary_stats d = generate_summary_stats d' := by
  simp only [generate_summary_stats, hcols, batchSummaryOf_perm hrows]

/-- Witness for C9: the example dataset with its rows reversed produces the
identical summaries. -/
theorem aggregation_order_independent_witness :
    unifiedExample.cols = unifiedExamplePerm.cols ∧
    unifiedExample.rows.Perm unifiedExamplePerm.rows ∧
    generate_summary_stats unifiedExample = generate_summary_stats unifiedExamplePerm :=
  ⟨rfl, by decide, aggregation_order_independent _ _ rfl (by decide)⟩

/-! ### Unanchored pattern acceptance (claim C10) -/

theorem stripLit_append (lit r : List Char) : stripLit lit (lit ++ r) = some r := by
  induction lit with
  | nil => rfl
  | cons c cs ih => simp [stripLit, ih]

theorem dropWhile_all {p : Char → Bool} {d : List Char} (hd : ∀ c ∈ d, p c = true)
    (r : List Char) : (d ++ r).dropWhile p = r.dropWhile p := by
  induction d with
  | nil => rfl
  | cons c cs ih =>
    have hc : p c = true := hd c (List.mem_cons_self c cs)
    simp only [List.cons_append, List.dropWhile_cons, hc, if_true]
    exact ih (fun x hx => hd x (List.mem_cons_of_mem c hx))

theorem takeDigits1_complete {d : List Char} (hne : d ≠ [])
    (hd : ∀ c ∈ d, c.isDigit = true) {x : Char} (hx : x.isDigit = false)
    (r : List Char) :
    ∃ v, takeDigits1 (d ++ x :: r) = some (v, x :: r) := by
  cases d with
  | nil => exact absurd rfl hne
  | cons c cs =>
    have hc : c.isDigit = true := hd c (List.mem_cons_self c cs)
    refine ⟨digitsToNat ((c :: cs ++ x :: r).takeWhile Char.isDigit), ?_⟩
    have hdrop : List.dropWhile Char.isDigit (c :: (cs ++ x :: r)) = x :: r := by
      have h0 := dropWhile_all hd (x :: r)
      simp only [List.cons_append] at h0
      rw [h0]
      simp [List.dropWhile_cons, hx]
    simp only [takeDigits1, List.cons_append, hc, if_true, hdrop]

theorem takeDigits1_isSome {d : List Char} (hne : d ≠ [])
    (hd : ∀ c ∈ d, c.isDigit = true) (post : List Char) :
    (takeDigits1 (d ++ post)).isSome = true := by
  cases d with
  | nil => exact absurd rfl hne
  | cons c cs =>
    have hc : c.isDigit = true := hd c (List.mem_cons_self c cs)
    simp [takeDigits1, hc]

theorem matchCncAt_complete {d1 d2 d3 : List Char} (h1 : d1 ≠ []) (h2 : d2 ≠ [])
    (h3 : d3 ≠ []) (hd1 : ∀ c ∈ d1, c.isDigit = true) (hd2 : ∀ c ∈ d2, c.isDigit = true)
    (hd3 : ∀ c ∈ d3, c.isDigit = true) (post : List Char) :
    (matchCncAt ('c' :: 'n' :: 'c' :: (d1 ++ '_' :: (d2 ++ '-' :: (d3 ++ post))))).isSome
      = true := by
  have e1 : stripLit ['c', 'n', 'c'] ('c' :: 'n' :: 'c' :: (d1 ++ '_' :: (d2 ++ '-' :: (d3 ++ post))))
      = some (d1 ++ '_' :: (d2 ++ '-' :: (d3 ++ post))) :=
    stripLit_append ['c', 'n', 'c'] _
  obtain ⟨v1, e2⟩ := takeDigits1_complete h1 hd1 (by decide : ('_').isDigit = false)
    (d2 ++ '-' :: (d3 ++ post))
  obtain ⟨v2, e3⟩ := takeDigits1_complete h2 hd2 (by decide : ('-').isDigit = false)
    (d3 ++ post)
  have e4 := takeDigits1_isSome h3 hd3 post
  obtain ⟨p4, hp4⟩ := Option.isSome_iff_exists.mp e4
  simp [matchCncAt, e1, e2, e3, stripLit, hp4]

theorem searchCnc_complete : ∀ pre rest : List Char,
    (matchCncAt rest).isSome = true → (searchCnc (pre ++ rest)).isSome = true := by
  intro pre
  induction pre with
  | nil =>
    intro rest h
    cases rest with
    | nil => exact absurd h (by decide)
    | cons c cs =>
      simp only [List.nil_append, searchCnc]
      obtain ⟨v, hv⟩ := Option.isSome_iff_exists.mp h
      simp [Option.orElse, hv]
  | cons q qre ih =>
    intro rest h
    simp only [List.cons_append, searchCnc]
    cases hm : matchCncAt (q :: (qre ++ rest)) with
    | some v => simp [Option.orElse, hm]
    | none => simpa [Option.orElse, hm] using ih rest h


theorem matchTailAt_complete {d1 d2 : List Char} (h1 : d1 ≠ []) (h2 : d2 ≠ [])
    (hd1 : ∀ c ∈ d1, c.isDigit = true) (hd2 : ∀ c ∈ d2, c.isDigit = true)
    (post : List Char) :
    (matchTailAt ('-' :: (d1 ++ '-' :: (d2 ++ '.' :: 'c' :: 's' :: 'v' :: post)))).isSome
      = true := by
  obtain ⟨v1, e1⟩ := takeDigits1_complete h1 hd1 (by decide : ('-').isDigit = false)
    (d2 ++ '.' :: 'c' :: 's' :: 'v' :: post)
  obtain ⟨v2, e2⟩ := takeDigits1_complete h2 hd2 (by decide : ('.').isDigit = false)
    ('c' :: 's' :: 'v' :: post)
  have e2' : takeDigits1 (d2 ++ '.' :: 'c' :: 's' :: 'v' :: post) = some (v2, '.' :: 'c' :: 's' :: 'v' :: post) := e2
  simp [matchTailAt, stripLit, e1, e2', Option.bind]

theorem scanTail_complete : ∀ mid : List Char, '\n' ∉ mid → ∀ rest : List Char,
    (matchTailAt rest).isSome = true → (scanTail (mid ++ rest)).isSome = true := by
  intro mid
  induction mid with
  | nil =>
    intro _ rest h
    cases rest with
    | nil => exact absurd h (by decide)
    | cons c cs =>
      obtain ⟨v, hv⟩ := Option.isSome_iff_exists.mp h
      simp [scanTail, Option.orElse, hv]
  | cons q qmid ih =>
    intro hq rest h
    have hqn : q ≠ '\n' := fun he => hq (he ▸ List.mem_cons_self q qmid)
    simp only [List.cons_append, scanTail]
    cases hm : matchTailAt (q :: (qmid ++ rest)) with
    | some v => simp [Option.orElse, hm]
    | none =>
      have := ih (fun hc => hq (List.mem_cons_of_mem q hc)) rest h
      simpa [Option.orElse, hm, hqn] using this

theorem searchFile_complete : ∀ pre : List Char, ∀ rest : List Char,
    (matchFileAt rest).isSome = true → (searchFile (pre ++ rest)).isSome = true := by
  intro pre
  induction pre with
  | nil =>
    intro rest h
    cases rest with
    | nil => exact absurd h (by decide)
    | cons c cs =>
      obtain ⟨v, hv⟩ := Option.isSome_iff_exists.mp h
      simp [searchFile, Option.orElse, hv]
  | cons q qre ih =>
    intro rest h
    simp only [List.cons_append, searchFile]
    cases hm : matchFileAt (q :: (qre ++ rest)) with
    | some v => simp [Option.orElse, hm]
    | none => simpa [Option.orElse, hm] using ih rest h

theorem matchFileAt_complete {mid d1 d2 : List Char} (hmid : '\n' ∉ mid)
    (h1 : d1 ≠ []) (h2 : d2 ≠ [])
    (hd1 : ∀ c ∈ d1, c.isDigit = true) (hd2 : ∀ c ∈ d2, c.isDigit = true)
    (post : List Char) :
    (matchFileAt ('r' :: 'e' :: 's' :: 'u' :: 'l' :: 't' :: '-' ::
      (mid ++ '-' :: (d1 ++ '-' :: (d2 ++ '.' :: 'c' :: 's' :: 'v' :: post))))).isSome
      = true := by
  have htail := matchTailAt_complete h1 h2 hd1 hd2 post
  have hscan := scanTail_complete mid hmid _ htail
  rw [matchFileAt]
  have e0 : stripLit ['r', 'e', 's', 'u', 'l', 't', '-']
      ('r' :: 'e' :: 's' :: 'u' :: 'l' :: 't' :: '-' ::
        (mid ++ '-' :: (d1 ++ '-' :: (d2 ++ '.' :: 'c' :: 's' :: 'v' :: post))))
      = some (mid ++ '-' :: (d1 ++ '-' :: (d2 ++ '.' :: 'c' :: 's' :: 'v' :: post))) :=
    stripLit_append ['r', 'e', 's', 'u', 'l', 't', '-'] _
  rw [e0]
  simpa using hscan


/-- C10.  Metadata extraction is an unanchored substring search: any path
whose containing directory name contains `cnc<digits>_<digits>-<digits>`
anywhere as a substring, and whose file name contains
`result-<text>-<digits>-<digits>.csv` anywhere as a substring (the text part
newline-free, per regex `.` semantics), yields a full metadata record —
acceptance is not limited to names exactly of those shapes, and `.csv` need
not be the file name's suffix. -/
theorem extract_metadata_unanchored (p : String)
    (hdir : ContainsCncPattern (basenameL (dirnameL p.data)))
    (hfile : ContainsResultPattern (basenameL p.data)) :
    ∃ m : Metadata, extract_metadata p = some m := by
  obtain ⟨pre, d1, d2, d3, post, heq, h1, h2, h3, hd1, hd2, hd3⟩ := hdir
  obtain ⟨fpre, mid, f1, f2, fpost, hfeq, hf1, hf2, hfd1, hfd2, hfmid⟩ := hfile
  have hcnc : (searchCnc (basenameL (dirnameL p.data))).isSome = true := by
    rw [heq]
    have hshape : pre ++ ('c' :: 'n' :: 'c' :: []) ++ d1 ++ ['_'] ++ d2 ++ ['-'] ++ d3 ++ post
        = pre ++ ('c' :: 'n' :: 'c' :: (d1 ++ '_' :: (d2 ++ '-' :: (d3 ++ post)))) := by
      simp [List.append_assoc]
    rw [hshape]
    exact searchCnc_complete pre _ (matchCncAt_complete h1 h2 h3 hd1 hd2 hd3 post)
  have hfil : (searchFile (basenameL p.data)).isSome = true := by
    rw [hfeq]
    have hshape : fpre ++ ('r' :: 'e' :: 's' :: 'u' :: 'l' :: 't' :: '-' :: []) ++ mid ++
          ['-'] ++ f1 ++ ['-'] ++ f2 ++ ('.' :: 'c' :: 's' :: 'v' :: []) ++ fpost
        = fpre ++ ('r' :: 'e' :: 's' :: 'u' :: 'l' :: 't' :: '-' ::
            (mid ++ '-' :: (f1 ++ '-' :: (f2 ++ '.' :: 'c' :: 's' :: 'v' :: fpost)))) := by
      simp [List.append_assoc]
    rw [hshape]
    exact searchFile_complete fpre _ (matchFileAt_complete hfmid hf1 hf2 hfd1 hfd2 fpost)
  obtain ⟨⟨cnc, tn, vn⟩, hc⟩ := Option.isSome_iff_exists.mp hcnc
  obtain ⟨⟨rn, bn⟩, hb⟩ := Option.isSome_iff_exists.mp hfil
  exact ⟨{ concurrency := cnc, test_num := tn, test_name := get_test_name tn,
           variant := vn, implementation := get_implementation_name vn,
           run := rn, batch := bn },
    by simp only [extract_metadata, hc, hb]⟩

/-- Witness for C10: junk characters surround both patterns and `.csv` is not
the suffix, yet a full record is produced. -/
theorem extract_metadata_unanchored_witness :
    (extract_metadata "Acnc10_1-2B/result-a-0-1.csvZZ").isSome = true := by
  obtain ⟨m, hm⟩ := extract_metadata_unanchored "Acnc10_1-2B/result-a-0-1.csvZZ"
    ⟨['A'], ['1', '0'], ['1'], ['2'], ['B'], by decide, by decide, by decide, by decide,
      by decide, by decide, by decide⟩
    ⟨[], ['a'], ['0'], ['1'], ['Z', 'Z'], by decide, by decide, by decide, by decide,
      by decide, by decide⟩
  rw [hm]
  rfl

end Stats
